import Mathlib

/-!
# RAMate — verification of the spec against the code

Shallow embedding of the RAMate RAG pipeline (Python backend snippets in the
repository documentation) and of the Next.js frontend (`page.tsx`,
`ChatInput.tsx`, `api.ts`, `utils.ts`).  Python/JS strings are modelled as
`List Char`; numbers that matter for confidence scoring are modelled as `ℚ`.
-/

/-- Whitespace test used by Python `str.strip()` and JS `String.trim()`
(restricted to the ASCII whitespace characters that occur in this code base). -/
def isWS (c : Char) : Bool :=
  c = ' ' || c = '\t' || c = '\n' || c = '\r'

/-- Drop trailing whitespace: models the right half of `str.strip()`. -/
def dropTrailWS (l : List Char) : List Char :=
  (l.reverse.dropWhile isWS).reverse

/-- Models Python `str.strip()` / JS `String.trim()` on a `List Char` string. -/
def stripWS (l : List Char) : List Char :=
  dropTrailWS (l.dropWhile isWS)

/-- Embeds `validate_query` (backend):
`if not query or len(query.strip()) == 0: return False`;
`if len(query) > 1000: return False`; `return True`. -/
def validate_query (query : List Char) : Bool :=
  if query.isEmpty || (stripWS query).length = 0 then false
  else if query.length > 1000 then false
  else true

/-- Embeds `enhance_query` (backend):
`enhanced = f"RA training {query} procedures policy"`. -/
def enhance_query (query : List Char) : List Char :=
  String.toList "RA training " ++ query ++ String.toList " procedures policy"

/-- The accumulation loop of `chunk_text` (backend): greedily packs sentences
into `current_chunk` while `len(current_chunk) + len(sentence) < chunk_size`,
otherwise flushes the (stripped) accumulated chunk and restarts from the
current sentence.  Faithful to the Python loop body. -/
def chunkLoop (sentences : List (List Char)) (current : List Char)
    (chunk_size : Nat) : List (List Char) :=
  match sentences with
  | [] => if current.isEmpty then [] else [stripWS current]
  | s :: rest =>
      if current.length + s.length < chunk_size then
        chunkLoop rest (current ++ s ++ [' ']) chunk_size
      else if current.isEmpty then
        chunkLoop rest (s ++ [' ']) chunk_size
      else
        stripWS current :: chunkLoop rest (s ++ [' ']) chunk_size

/-- Embeds `chunk_text` (backend) from the sentence list onward: the helper
`split_into_sentences` is referenced but not present in the repository, so the
function is parameterised by the sentence list it returns.  The `overlap`
parameter is accepted, as in the source signature
`chunk_text(self, text, chunk_size=600, overlap=100)`, and — exactly as in the
source body — never used. -/
def chunk_text (sentences : List (List Char)) (chunk_size : Nat)
    (_overlap : Nat) : List (List Char) :=
  chunkLoop sentences [] chunk_size

/-- Models Python `round(x, 3)` on exact rationals (round to 3 decimal places;
tie-breaking differences between banker's rounding and round-half-up do not
affect any property proved here). -/
def round3 (q : ℚ) : ℚ :=
  ((round (q * 1000) : ℤ) : ℚ) / 1000

/-- Embeds `calculate_confidence` (backend): the four component scores are
computed by private helpers that are not in the repository sources, so they
enter as arguments; the function combines them exactly as the source does:
`confidence = relevance*0.4 + completeness*0.3 + consistency*0.2 +
complexity*0.1; return round(confidence, 3)`. -/
def calculate_confidence (relevance_score completeness_score consistency_score
    complexity_score : ℚ) : ℚ :=
  round3 (relevance_score * 0.4 + completeness_score * 0.3 +
    consistency_score * 0.2 + complexity_score * 0.1)

-- Frontend data model (`api.ts`, `page.tsx`)

/-- Embeds the `data` payload of a successful `ChatResponse` (`api.ts`). -/
structure ChatData where
  query : List Char
  answer : List Char
  sources : List (List Char)
  links : List (List Char)
  confidence : ℚ
  timestamp : List Char
deriving DecidableEq

/-- Embeds `ChatResponse` (`api.ts`): `status`, optional `data`, optional
`message`. -/
structure ChatResponse where
  status : List Char
  data : Option ChatData
  message : Option (List Char)
deriving DecidableEq

/-- Embeds the `ChatMessage` interface of `page.tsx` (the UI message list
entry); the optional `isLoading` field is modelled as a `Bool` that is `false`
when the source leaves it `undefined`. -/
structure ChatMessage where
  id : List Char
  query : List Char
  answer : List Char
  sources : List (List Char)
  links : List (List Char)
  confidence : ℚ
  timestamp : List Char
  isLoading : Bool
deriving DecidableEq

/-- Outcome of `apiService.sendChatMessage` as observed by
`handleSendMessage`: the promise resolves with a `ChatResponse`, or it
rejects (the `catch` branch of `page.tsx`). -/
inductive SendOutcome
  | resolved (response : ChatResponse)
  | thrown
deriving DecidableEq

/-- The temporary loading message pushed by `handleSendMessage`
(`page.tsx`): empty answer, no sources or links, confidence 0,
`isLoading: true`. -/
def loadingMessage (lid query ts : List Char) : ChatMessage :=
  ⟨lid, query, [], [], [], 0, ts, true⟩

/-- The error message appended by the error-response branch of
`handleSendMessage`: `response.message` or the fixed fallback text, with
confidence 0 and empty sources and links. -/
def backendErrorMessage (nid query : List Char) (msg : Option (List Char))
    (ts : List Char) : ChatMessage :=
  ⟨nid, query,
    msg.getD (String.toList
      "Sorry, I encountered an error processing your request. Please try again."),
    [], [], 0, ts, false⟩

/-- The error message appended by the `catch` branch of `handleSendMessage`. -/
def thrownErrorMessage (nid query ts : List Char) : ChatMessage :=
  ⟨nid, query,
    String.toList
      "Sorry, I couldn't connect to the RAMate API. Please check if the backend server is running and try again.",
    [], [], 0, ts, false⟩

/-- Embeds `handleSendMessage` (`page.tsx`) as a transformation of the
message list: guard on blank query / already loading, push the loading
message, then in every branch filter it out by id and append the final
message.  `lid` and `nid` are the two `Date.now().toString()` ids; `ts` the
timestamp strings. -/
def handleSendMessage (prev : List ChatMessage) (query : List Char)
    (lid nid ts : List Char) (isLoading : Bool) (outcome : SendOutcome) :
    List ChatMessage :=
  if (stripWS query).isEmpty || isLoading then prev
  else
    let afterLoading := prev ++ [loadingMessage lid query ts]
    let filtered := afterLoading.filter (fun m => decide (m.id ≠ lid))
    match outcome with
    | SendOutcome.resolved r =>
        match r.data with
        | some d =>
            if r.status = String.toList "success" then
              filtered ++
                [⟨nid, d.query, d.answer, d.sources, d.links, d.confidence,
                  d.timestamp, false⟩]
            else
              filtered ++ [backendErrorMessage nid query r.message ts]
        | none => filtered ++ [backendErrorMessage nid query r.message ts]
    | SendOutcome.thrown => filtered ++ [thrownErrorMessage nid query ts]

/-- Embeds `handleSubmit` (`ChatInput.tsx`): trims the message, returns early
on blank / loading / disabled, otherwise calls `onSendMessage` with the
trimmed message (modelled as the returned value). -/
def handleSubmit (message : List Char) (isLoading disabled : Bool) :
    Option (List Char) :=
  let trimmedMessage := stripWS message
  if trimmedMessage.isEmpty || isLoading || disabled then none
  else some trimmedMessage

/-- Embeds `formatConfidence` (`utils.ts`): `Math.round(confidence * 100)`
against thresholds 80 / 60 / 40. -/
def formatConfidence (confidence : ℚ) : List Char :=
  let percentage : ℤ := round (confidence * 100)
  if 80 ≤ percentage then String.toList "High"
  else if 60 ≤ percentage then String.toList "Medium"
  else if 40 ≤ percentage then String.toList "Low"
  else String.toList "Very Low"

/-- Embeds `getConfidenceColor` (`utils.ts`): same percentage and thresholds,
mapped to CSS classes. -/
def getConfidenceColor (confidence : ℚ) : List Char :=
  let percentage : ℤ := round (confidence * 100)
  if 80 ≤ percentage then String.toList "text-green-600"
  else if 60 ≤ percentage then String.toList "text-yellow-600"
  else if 40 ≤ percentage then String.toList "text-orange-600"
  else String.toList "text-red-600"

/-- Outcome of the axios `post` call inside `sendChatMessage` (`api.ts`):
success with a body, an axios error optionally carrying `response.data`, or a
non-axios failure. -/
inductive AxiosOutcome (α : Type)
  | ok (data : α)
  | axiosError (responseData : Option α)
  | otherError
deriving DecidableEq

/-- Embeds `sendChatMessage` (`api.ts`): returns `response.data` on success;
on an axios error with `error.response?.data` present, returns that body as
the `ChatResponse`; otherwise throws `'Failed to send chat message'`. -/
def sendChatMessage (r : AxiosOutcome ChatResponse) :
    Except (List Char) ChatResponse :=
  match r with
  | AxiosOutcome.ok d => Except.ok d
  | AxiosOutcome.axiosError (some d) => Except.ok d
  | AxiosOutcome.axiosError none =>
      Except.error (String.toList "Failed to send chat message")
  | AxiosOutcome.otherError =>
      Except.error (String.toList "Failed to send chat message")

/-- The `/chat` route's two externally visible outcomes. -/
inductive ChatHTTP
  | success (answer : List Char)
  | clientError (message : List Char)
deriving DecidableEq

/-- Modelled from the spec: the Flask `/chat` route handler itself is not in
the repository sources (only its request/response documentation is), and per
the spec the route validates the query and returns a client-error response,
without calling the completion service, when validation fails.  The
completion service is abstracted as a function argument; the returned flag
records whether it was called. -/
def chat_endpoint (query : List Char) (completion : List Char → List Char) :
    ChatHTTP × Bool :=
  if validate_query query then
    (ChatHTTP.success (completion (enhance_query query)), true)
  else
    (ChatHTTP.clientError (String.toList "Invalid query"), false)

/-- Decides whether a positive-length overlap of length at most `bound` exists
between the end of chunk `a` and the start of chunk `b` (the overlap relation
the spec ascribes to consecutive chunks). -/
def sharesOverlap (a b : List Char) (bound : Nat) : Bool :=
  (List.range' 1 bound).any (fun k => (a.reverse.take k).reverse == b.take k)

-- Basic lemmas about stripping

theorem dropTrailWS_length_le (l : List Char) : (dropTrailWS l).length ≤ l.length := by
  unfold dropTrailWS
  rw [List.length_reverse]
  calc (l.reverse.dropWhile isWS).length ≤ l.reverse.length :=
        (List.dropWhile_sublist _).length_le
    _ = l.length := List.length_reverse l

theorem stripWS_length_le (l : List Char) : (stripWS l).length ≤ l.length := by
  unfold stripWS
  calc (dropTrailWS (l.dropWhile isWS)).length ≤ (l.dropWhile isWS).length :=
        dropTrailWS_length_le _
    _ ≤ l.length := (List.dropWhile_sublist _).length_le

theorem dropWhile_eq_self_of_stripWS_eq (l : List Char) (h : stripWS l = l) :
    l.dropWhile isWS = l := by
  have h1 : (l.dropWhile isWS).Sublist l := List.dropWhile_sublist _
  have h2 : l.length ≤ (l.dropWhile isWS).length := by
    have := stripWS_length_le l
    rw [h] at this
    have h3 : (stripWS l).length ≤ (l.dropWhile isWS).length := by
      unfold stripWS; exact dropTrailWS_length_le _
    rw [h] at h3
    exact h3
  exact h1.eq_of_length (Nat.le_antisymm h1.length_le h2)

theorem dropTrailWS_eq_self_of_stripWS_eq (l : List Char) (h : stripWS l = l) :
    dropTrailWS l = l := by
  have hd := dropWhile_eq_self_of_stripWS_eq l h
  unfold stripWS at h
  rw [hd] at h
  exact h

/-- Appending a single space to an already-stripped string and stripping again
gives back the original string. -/
theorem stripWS_append_space (s : List Char) (h : stripWS s = s) :
    stripWS (s ++ [' ']) = s := by
  cases s with
  | nil => decide
  | cons a t =>
      have hds := dropWhile_eq_self_of_stripWS_eq _ h
      have ha : isWS a = false := by
        by_contra hcon
        have ha' : isWS a = true := by
          cases hw : isWS a with
          | false => exact absurd hw hcon
          | true => rfl
        simp only [List.dropWhile_cons, ha', if_true] at hds
        have hlen := (List.dropWhile_sublist (l := t) (p := isWS)).length_le
        rw [hds] at hlen
        simp at hlen
      have hd : ((a :: t) ++ [' ']).dropWhile isWS = (a :: t) ++ [' '] := by
        simp only [List.cons_append, List.dropWhile_cons, ha]
        simp
      unfold stripWS
      rw [hd]
      unfold dropTrailWS
      rw [List.reverse_append, List.reverse_singleton]
      have hsp : isWS ' ' = true := by decide
      simp only [List.singleton_append, List.dropWhile_cons, hsp, if_true]
      have hdt := dropTrailWS_eq_self_of_stripWS_eq _ h
      unfold dropTrailWS at hdt
      rw [hdt]

/-- Soundness invariant of the `chunk_text` accumulation loop: every emitted
chunk either fits in `chunk_size` or is the stripped form of a single input
sentence (followed by the separating space the loop appends). -/
theorem chunkLoop_sound (L : List (List Char)) :
    ∀ (rest : List (List Char)) (current : List Char) (size : Nat),
      (∀ s ∈ rest, s ∈ L) →
      (current = [] ∨ current.length ≤ size ∨ ∃ s ∈ L, current = s ++ [' ']) →
      ∀ c ∈ chunkLoop rest current size,
        c.length ≤ size ∨ ∃ s ∈ L, c = stripWS (s ++ [' ']) := by
  intro rest
  induction rest with
  | nil =>
      intro current size _ hcur c hc
      unfold chunkLoop at hc
      by_cases hemp : current.isEmpty
      · rw [if_pos hemp] at hc
        exact absurd hc (List.not_mem_nil c)
      · rw [if_neg hemp] at hc
        have hc' : c = stripWS current := List.eq_of_mem_singleton hc
        rcases hcur with h0 | hlen | ⟨s, hs, hcs⟩
        · rw [h0] at hemp
          exact absurd rfl hemp
        · left
          rw [hc']
          exact le_trans (stripWS_length_le current) hlen
        · right
          exact ⟨s, hs, by rw [hc', hcs]⟩
  | cons s rest ih =>
      intro current size hsub hcur c hc
      unfold chunkLoop at hc
      by_cases hfit : current.length + s.length < size
      · rw [if_pos hfit] at hc
        refine ih (current ++ s ++ [' ']) size
          (fun t ht => hsub t (List.mem_cons_of_mem s ht)) ?_ c hc
        right; left
        have : (current ++ s ++ [' ']).length = current.length + s.length + 1 := by
          simp
          omega
        omega
      · rw [if_neg hfit] at hc
        by_cases hemp : current.isEmpty
        · rw [if_pos hemp] at hc
          refine ih (s ++ [' ']) size
            (fun t ht => hsub t (List.mem_cons_of_mem s ht)) ?_ c hc
          right; right
          exact ⟨s, hsub s (List.mem_cons_self s rest), rfl⟩
        · rw [if_neg hemp] at hc
          rcases List.mem_cons.mp hc with hc' | hc'
          · rcases hcur with h0 | hlen | ⟨t, ht, hct⟩
            · rw [h0] at hemp
              exact absurd rfl hemp
            · left
              rw [hc']
              exact le_trans (stripWS_length_le current) hlen
            · right
              exact ⟨t, ht, by rw [hc', hct]⟩
          · refine ih (s ++ [' ']) size
              (fun t ht => hsub t (List.mem_cons_of_mem s ht)) ?_ c hc'
            right; right
            exact ⟨s, hsub s (List.mem_cons_self s rest), rfl⟩

theorem round_mono {a b : ℚ} (h : a ≤ b) : round a ≤ round b := by
  rw [round_eq, round_eq]
  exact Int.floor_le_floor (by linarith)

theorem round3_nonneg {q : ℚ} (h : 0 ≤ q) : 0 ≤ round3 q := by
  unfold round3
  apply div_nonneg _ (by norm_num)
  have h0 : round (0 : ℚ) ≤ round (q * 1000) := round_mono (by linarith)
  rw [round_zero] at h0
  exact_mod_cast h0

theorem round3_le_one {q : ℚ} (h : q ≤ 1) : round3 q ≤ 1 := by
  unfold round3
  rw [div_le_one (by norm_num : (0:ℚ) < 1000)]
  have h1 : round (q * 1000) ≤ round ((1000 : ℤ) : ℚ) := round_mono (by push_cast; linarith)
  rw [round_intCast] at h1
  exact_mod_cast h1

/-- C1: `calculate_confidence` returns the weighted sum of the four component
scores (relevance × 0.4, completeness × 0.3, consistency × 0.2, complexity ×
0.1) rounded to 3 decimals, and whenever each component lies in [0,1] the
final score lies in [0,1]. -/
theorem calculate_confidence_weighted_sum_bounds
    (relevance completeness consistency complexity : ℚ) :
    calculate_confidence relevance completeness consistency complexity =
      round3 (relevance * 0.4 + completeness * 0.3 +
        consistency * 0.2 + complexity * 0.1) ∧
    (0 ≤ relevance ∧ relevance ≤ 1 → 0 ≤ completeness ∧ completeness ≤ 1 →
     0 ≤ consistency ∧ consistency ≤ 1 → 0 ≤ complexity ∧ complexity ≤ 1 →
      0 ≤ calculate_confidence relevance completeness consistency complexity ∧
        calculate_confidence relevance completeness consistency complexity ≤ 1) := by
  constructor
  · rfl
  · rintro ⟨hr0, hr1⟩ ⟨hc0, hc1⟩ ⟨hk0, hk1⟩ ⟨hx0, hx1⟩
    unfold calculate_confidence
    have h0 : (0:ℚ) ≤ relevance * 0.4 + completeness * 0.3 +
        consistency * 0.2 + complexity * 0.1 := by nlinarith
    have h1 : relevance * 0.4 + completeness * 0.3 +
        consistency * 0.2 + complexity * 0.1 ≤ 1 := by nlinarith
    exact ⟨round3_nonneg h0, round3_le_one h1⟩

/-- Witness for C1 at the concrete component scores (0.9, 0.5, 0.25, 1). -/
theorem calculate_confidence_weighted_sum_bounds_witness :
    0 ≤ calculate_confidence 0.9 0.5 0.25 1 ∧
      calculate_confidence 0.9 0.5 0.25 1 ≤ 1 :=
  (calculate_confidence_weighted_sum_bounds 0.9 0.5 0.25 1).2
    (by norm_num) (by norm_num) (by norm_num) (by norm_num)

/-- C2: every chunk produced by `chunk_text` has length at most `chunk_size`,
or is a single (whitespace-free-at-the-ends) sentence longer than
`chunk_size`, kept as its own chunk with no mid-sentence splitting. -/
theorem chunk_text_size_bound (sentences : List (List Char))
    (chunk_size overlap : Nat) (htrim : ∀ s ∈ sentences, stripWS s = s) :
    ∀ c ∈ chunk_text sentences chunk_size overlap,
      c.length ≤ chunk_size ∨ (c ∈ sentences ∧ chunk_size < c.length) := by
  intro c hc
  have hs := chunkLoop_sound sentences sentences [] chunk_size
    (fun _ h => h) (Or.inl rfl) c hc
  rcases hs with h | ⟨s, hsL, hcs⟩
  · exact Or.inl h
  · have hcseq : c = s := by rw [hcs, stripWS_append_space s (htrim s hsL)]
    rcases Nat.lt_or_ge chunk_size c.length with hlt | hle
    · exact Or.inr ⟨hcseq ▸ hsL, hlt⟩
    · exact Or.inl hle

/-- Witness for C2: a 8-character sentence with `chunk_size = 5` is kept as
its own over-long chunk; evaluated on a concrete sentence list. -/
theorem chunk_text_size_bound_witness :
    (String.toList "abcdefgh").length ≤ 5 ∨
      (String.toList "abcdefgh" ∈ [String.toList "abcdefgh", String.toList "xy"] ∧
        5 < (String.toList "abcdefgh").length) :=
  chunk_text_size_bound [String.toList "abcdefgh", String.toList "xy"] 5 100
    (by decide) (String.toList "abcdefgh") (by decide)

/-- C3 (code bug evidence): `chunk_text` ignores its `overlap` parameter; on
the sentences "aaaaa", "bbbbb" with `chunk_size = 6` and `overlap = 100` it
produces two chunks that share no positive-length overlapping suffix/prefix
at all. -/
theorem chunk_text_overlap_ignored :
    chunk_text [String.toList "aaaaa", String.toList "bbbbb"] 6 100 =
      [String.toList "aaaaa", String.toList "bbbbb"] ∧
    sharesOverlap (String.toList "aaaaa") (String.toList "bbbbb") 100 = false := by
  constructor
  · decide
  · decide

/-- C4: chunking is deterministic — two runs of `chunk_text` on equal
arguments produce identical chunk sequences. -/
theorem chunk_text_deterministic (s₁ s₂ : List (List Char))
    (n₁ n₂ o₁ o₂ : Nat) (hs : s₁ = s₂) (hn : n₁ = n₂) (ho : o₁ = o₂) :
    chunk_text s₁ n₁ o₁ = chunk_text s₂ n₂ o₂ := by
  rw [hs, hn, ho]

/-- Witness for C4 on a concrete two-sentence input. -/
theorem chunk_text_deterministic_witness :
    chunk_text [String.toList "One.", String.toList "Two."] 600 100 =
      chunk_text [String.toList "One.", String.toList "Two."] 600 100 :=
  chunk_text_deterministic _ _ _ _ _ _ rfl rfl rfl

/-- C5: `validate_query` accepts exactly the queries that are non-empty after
stripping whitespace and at most 1000 characters long; and on any rejected
query the (spec-modelled) `/chat` endpoint returns a client error without
calling the completion service. -/
theorem validate_query_spec (q : List Char)
    (completion : List Char → List Char) :
    (validate_query q = true ↔ stripWS q ≠ [] ∧ q.length ≤ 1000) ∧
    (¬(stripWS q ≠ [] ∧ q.length ≤ 1000) →
      chat_endpoint q completion =
        (ChatHTTP.clientError (String.toList "Invalid query"), false)) := by
  have hval : validate_query q = true ↔ stripWS q ≠ [] ∧ q.length ≤ 1000 := by
    unfold validate_query
    constructor
    · intro h
      by_cases h1 : (q.isEmpty || decide ((stripWS q).length = 0)) = true
      · rw [if_pos h1] at h
        exact absurd h (by simp)
      · by_cases h2 : q.length > 1000
        · rw [if_neg h1, if_pos h2] at h
          exact absurd h (by simp)
        · refine ⟨?_, by omega⟩
          intro hnil
          apply h1
          simp only [Bool.or_eq_true, decide_eq_true_eq]
          right
          rw [hnil]
          rfl
    · rintro ⟨hne, hlen⟩
      have h1 : (q.isEmpty || decide ((stripWS q).length = 0)) = false := by
        simp only [Bool.or_eq_false_iff, decide_eq_false_iff_not]
        constructor
        · cases q with
          | nil => exact absurd rfl hne
          | cons a t => rfl
        · intro hlen0
          exact hne (List.eq_nil_of_length_eq_zero hlen0)
      rw [if_neg (by rw [h1]; simp), if_neg (by omega)]
  refine ⟨hval, ?_⟩
  intro hbad
  have hfalse : validate_query q = false := by
    cases hv : validate_query q with
    | false => rfl
    | true => exact absurd (hval.mp hv) hbad
  unfold chat_endpoint
  rw [hfalse]
  rfl

/-- Witness for C5: the one-space query is rejected and the endpoint answers
with a client error, never calling the completion function. -/
theorem validate_query_spec_witness :
    chat_endpoint [' '] (fun a => a) =
      (ChatHTTP.clientError (String.toList "Invalid query"), false) :=
  (validate_query_spec [' '] (fun a => a)).2 (by decide)

/-- C6 counterexample: `enhance_query` does not merely append the fixed
keywords after the raw query — on the query "x" the result begins with "R"
(from the prefixed "RA training "), not with the raw query. -/
theorem enhance_query_not_append_only :
    enhance_query (String.toList "x") =
      String.toList "RA training x procedures policy" ∧
    List.take 1 (enhance_query (String.toList "x")) = String.toList "R" ∧
    decide (List.take 1 (enhance_query (String.toList "x")) =
      List.take 1 (String.toList "x")) = false := by
  refine ⟨by decide, by decide, by decide⟩

/-- C6 (amended): `enhance_query` is a pure deterministic string
transformation that surrounds the raw query with fixed domain keywords —
"RA training " before it and " procedures policy" after it — so the raw query
appears verbatim in the middle of the result. -/
theorem enhance_query_amended (q : List Char) :
    enhance_query q =
      String.toList "RA training " ++ q ++ String.toList " procedures policy" :=
  rfl

theorem filtered_id_ne (l : List ChatMessage) (lid : List Char)
    (m : ChatMessage) (hm : m ∈ l.filter (fun m => decide (m.id ≠ lid))) :
    m.id ≠ lid := by
  have h := List.mem_filter.mp hm
  simpa using h.2

/-- In every branch of `handleSendMessage`, the result is the filtered list
followed by one final non-loading message: the loading message is gone and
the list ends in the final message. -/
theorem handleSendMessage_branch (prev : List ChatMessage)
    (query lid ts : List Char) (final : ChatMessage)
    (hfin : final.isLoading = false) :
    loadingMessage lid query ts ∉
      ((prev ++ [loadingMessage lid query ts]).filter
        (fun m => decide (m.id ≠ lid)) ++ [final]) ∧
    (((prev ++ [loadingMessage lid query ts]).filter
        (fun m => decide (m.id ≠ lid))) ++ [final]).getLast? = some final := by
  constructor
  · intro hmem
    rcases List.mem_append.mp hmem with h | h
    · exact filtered_id_ne _ lid _ h rfl
    · have heq : loadingMessage lid query ts = final :=
        List.eq_of_mem_singleton h
      rw [← heq] at hfin
      simp [loadingMessage] at hfin
  · rw [List.getLast?_append_cons]
    rfl

/-- C7: for a non-blank query, `handleSendMessage` always removes the
temporary loading message and leaves the message list ending in a non-loading
message; in the error-response and thrown branches the final message has
confidence 0, empty sources and empty links. -/
theorem handleSendMessage_spec (prev : List ChatMessage)
    (query lid nid ts : List Char) (outcome : SendOutcome)
    (hq : (stripWS query).isEmpty = false) :
    loadingMessage lid query ts ∉
        handleSendMessage prev query lid nid ts false outcome ∧
    ∃ last, (handleSendMessage prev query lid nid ts false outcome).getLast? =
        some last ∧ last.isLoading = false ∧
      (∀ r, outcome = SendOutcome.resolved r →
        (r.data = none ∨ r.status ≠ String.toList "success") →
        last.confidence = 0 ∧ last.sources = [] ∧ last.links = []) ∧
      (outcome = SendOutcome.thrown →
        last.confidence = 0 ∧ last.sources = [] ∧ last.links = []) := by
  unfold handleSendMessage
  rw [if_neg (by simp [hq])]
  cases outcome with
  | thrown =>
      dsimp only
      have hb := handleSendMessage_branch prev query lid ts
        (thrownErrorMessage nid query ts) rfl
      exact ⟨hb.1, thrownErrorMessage nid query ts, hb.2, rfl,
        fun r hr => SendOutcome.noConfusion hr, fun _ => ⟨rfl, rfl, rfl⟩⟩
  | resolved r =>
      obtain ⟨status, data, message⟩ := r
      dsimp only
      cases data with
      | none =>
          dsimp only
          have hb := handleSendMessage_branch prev query lid ts
            (backendErrorMessage nid query message ts) rfl
          exact ⟨hb.1, backendErrorMessage nid query message ts, hb.2, rfl,
            fun r' hr' _ => ⟨rfl, rfl, rfl⟩,
            fun h => SendOutcome.noConfusion h⟩
      | some d =>
          dsimp only
          by_cases hst : status = String.toList "success"
          · rw [if_pos hst]
            have hb := handleSendMessage_branch prev query lid ts
              ⟨nid, d.query, d.answer, d.sources, d.links, d.confidence,
                d.timestamp, false⟩ rfl
            refine ⟨hb.1,
              ⟨nid, d.query, d.answer, d.sources, d.links, d.confidence,
                d.timestamp, false⟩, hb.2, rfl, ?_,
              fun h => SendOutcome.noConfusion h⟩
            intro r' hr' hbad
            cases hr'
            rcases hbad with hnone | hne
            · cases hnone
            · exact absurd hst hne
          · rw [if_neg hst]
            have hb := handleSendMessage_branch prev query lid ts
              (backendErrorMessage nid query message ts) rfl
            exact ⟨hb.1, backendErrorMessage nid query message ts, hb.2, rfl,
              fun r' hr' _ => ⟨rfl, rfl, rfl⟩,
              fun h => SendOutcome.noConfusion h⟩

/-- Witness for C7: concrete thrown-request interaction on an empty prior
list; the loading message is removed and the final message is the connection
error with confidence 0 and no sources or links. -/
theorem handleSendMessage_spec_witness :
    loadingMessage (String.toList "1") (String.toList "hi") (String.toList "t") ∉
        handleSendMessage [] (String.toList "hi") (String.toList "1")
          (String.toList "2") (String.toList "t") false SendOutcome.thrown ∧
    ∃ last, (handleSendMessage [] (String.toList "hi") (String.toList "1")
          (String.toList "2") (String.toList "t") false
          SendOutcome.thrown).getLast? = some last ∧ last.isLoading = false ∧
      (∀ r, SendOutcome.thrown = SendOutcome.resolved r →
        (r.data = none ∨ r.status ≠ String.toList "success") →
        last.confidence = 0 ∧ last.sources = [] ∧ last.links = []) ∧
      (SendOutcome.thrown = SendOutcome.thrown →
        last.confidence = 0 ∧ last.sources = [] ∧ last.links = []) :=
  handleSendMessage_spec [] (String.toList "hi") (String.toList "1")
    (String.toList "2") (String.toList "t") SendOutcome.thrown (by decide)

/-- C8: the frontend chat input enforces no 1000-character limit — whenever
the trimmed message is non-empty (and the input is neither loading nor
disabled) `handleSubmit` sends the trimmed text, whatever its length; it
returns nothing exactly when the trimmed message is blank. -/
theorem handleSubmit_no_length_limit (message : List Char) :
    (stripWS message ≠ [] →
      handleSubmit message false false = some (stripWS message)) ∧
    (handleSubmit message false false = none ↔ stripWS message = []) := by
  by_cases hs : stripWS message = []
  · refine ⟨fun h => absurd hs h, ?_⟩
    simp [handleSubmit, hs]
  · have hne : (stripWS message).isEmpty = false := by
      cases h : stripWS message with
      | nil => exact absurd h hs
      | cons a t => rfl
    refine ⟨fun _ => ?_, ?_⟩
    · simp [handleSubmit, hne]
    · simp [handleSubmit, hne, hs]

set_option maxRecDepth 10000

/-- Witness for C8: a 1001-character message is sent — well beyond the
displayed 1000-character counter. -/
theorem handleSubmit_no_length_limit_witness :
    handleSubmit (List.replicate 1001 'a') false false =
      some (stripWS (List.replicate 1001 'a')) :=
  (handleSubmit_no_length_limit (List.replicate 1001 'a')).1 (by decide)

/-- C9: `formatConfidence` and `getConfidenceColor` round the same way and
use the same 80/60/40 thresholds, so the textual label and the colour class
always agree: High ↔ green, Medium ↔ yellow, Low ↔ orange, Very Low ↔ red. -/
theorem format_color_consistent (c : ℚ) :
    (formatConfidence c = String.toList "High" ↔
      getConfidenceColor c = String.toList "text-green-600") ∧
    (formatConfidence c = String.toList "Medium" ↔
      getConfidenceColor c = String.toList "text-yellow-600") ∧
    (formatConfidence c = String.toList "Low" ↔
      getConfidenceColor c = String.toList "text-orange-600") ∧
    (formatConfidence c = String.toList "Very Low" ↔
      getConfidenceColor c = String.toList "text-red-600") := by
  unfold formatConfidence getConfidenceColor
  by_cases h80 : (80:ℤ) ≤ round (c * 100)
  · simp only [if_pos h80]
    decide
  · simp only [if_neg h80]
    by_cases h60 : (60:ℤ) ≤ round (c * 100)
    · simp only [if_pos h60]
      decide
    · simp only [if_neg h60]
      by_cases h40 : (40:ℤ) ≤ round (c * 100)
      · simp only [if_pos h40]
        decide
      · simp only [if_neg h40]
        decide

/-- C10: `sendChatMessage` never throws when the backend responded with a
body — on a successful response or an axios error carrying response data it
returns that body; it throws 'Failed to send chat message' exactly when no
response data is available. -/
theorem sendChatMessage_spec (r : AxiosOutcome ChatResponse) :
    (∀ d, r = AxiosOutcome.ok d → sendChatMessage r = Except.ok d) ∧
    (∀ d, r = AxiosOutcome.axiosError (some d) →
      sendChatMessage r = Except.ok d) ∧
    (sendChatMessage r =
        Except.error (String.toList "Failed to send chat message") ↔
      r = AxiosOutcome.axiosError none ∨ r = AxiosOutcome.otherError) := by
  rcases r with d | od | _
  · refine ⟨?_, ?_, ?_⟩
    · intro d' hd'
      cases hd'
      rfl
    · intro d' hd'
      cases hd'
    · simp [sendChatMessage]
  · rcases od with _ | d
    · refine ⟨?_, ?_, ?_⟩
      · intro d' hd'
        cases hd'
      · intro d' hd'
        cases hd'
      · simp [sendChatMessage]
    · refine ⟨?_, ?_, ?_⟩
      · intro d' hd'
        cases hd'
      · intro d' hd'
        cases hd'
        rfl
      · simp [sendChatMessage]
  · refine ⟨?_, ?_, ?_⟩
    · intro d' hd'
      cases hd'
    · intro d' hd'
      cases hd'
    · simp [sendChatMessage]

/-- Witness for C10: an axios error whose `response.data` carries an error
body is returned as a normal `ChatResponse`, not thrown. -/
theorem sendChatMessage_spec_witness :
    sendChatMessage (AxiosOutcome.axiosError
      (some ⟨String.toList "error", none, some (String.toList "bad request")⟩)) =
      Except.ok ⟨String.toList "error", none, some (String.toList "bad request")⟩ :=
  (sendChatMessage_spec (AxiosOutcome.axiosError
      (some ⟨String.toList "error", none, some (String.toList "bad request")⟩))).2.1
    ⟨String.toList "error", none, some (String.toList "bad request")⟩ rfl
